import Mathlib

/-!
# Verification of the LittleLanguage front end (lexer + grammar engine)

Shallow embedding of the repository's two components:

* `src/lexer/mod.rs` / `src/lexer/token/mod.rs` — the `Lexer`, its `Token`
  and `Location` types, embedded as fuel-indexed structural recursions over
  `List Char` (the fuel is `input.length + 1`, which is always sufficient
  because every step of the Rust lexer consumes at least one character).
* `src/parser/mod.rs` / `src/parser/expression/mod.rs` — the nom-based
  grammar engine, embedded via a three-valued parse result mirroring nom's
  `Ok` / `Err::Error` (recoverable) / `Err::Failure` (committed, from `cut`)
  and direct translations of the nom 5 combinators the source uses.

Character classes: the Rust code uses `char::is_whitespace`,
`is_alphabetic`, `is_alphanumeric` and `is_digit(10)`.  We model them with
Lean's ASCII `Char.isWhitespace` / `Char.isAlpha` / `Char.isAlphanum` /
`Char.isDigit`; they agree on all ASCII input (the language's alphabet).
-/

namespace LittleLanguage

/-! ## Token model (`src/lexer/token/mod.rs`) -/

/-- `Location { column, line }`, built by `Location::new(column, line)`. -/
structure Location where
  column : Nat
  line : Nat
deriving DecidableEq, Repr

/-- The `Token` enum of `src/lexer/token/mod.rs`, verbatim. -/
inductive Token where
  | If (loc : Location)
  | Else (loc : Location)
  | Variable (loc : Location)
  | For (loc : Location)
  | Function (loc : Location)
  | Container (loc : Location)
  | Identifier (loc : Location) (payload : String)
  | True (loc : Location)
  | False (loc : Location)
  | NumberLiteral (loc : Location) (payload : String)
  | StringLiteral (loc : Location) (payload : String)
  | Semicolon (loc : Location)
  | Comma (loc : Location)
  | OpenBracket (loc : Location)
  | CloseBracket (loc : Location)
  | OpenParentheses (loc : Location)
  | CloseParentheses (loc : Location)
  | OpenCurlyBrace (loc : Location)
  | CloseCurlyBrace (loc : Location)
  | Dot (loc : Location)
  | Assignment (loc : Location)
  | Equality (loc : Location)
  | GreaterThan (loc : Location)
  | GreaterEqualTo (loc : Location)
  | LessThan (loc : Location)
  | LessEqualTo (loc : Location)
  | LogicalNot (loc : Location)
  | LogicalNotEqualTo (loc : Location)
  | LogicalOr (loc : Location)
  | LogicalAnd (loc : Location)
  | BitwiseOr (loc : Location)
  | BitwiseAnd (loc : Location)
  | BitwiseNot (loc : Location)
  | SubtractEqual (loc : Location)
  | AddEqual (loc : Location)
  | MultiplyEqual (loc : Location)
  | DivideEqual (loc : Location)
  | Subtraction (loc : Location)
  | Addition (loc : Location)
  | Multiply (loc : Location)
  | Divide (loc : Location)
deriving DecidableEq, Repr

/-- Token kinds: `Token` with locations and payloads erased (what the
round-trip property of the spec compares). -/
inductive TokenKind where
  | If | Else | Variable | For | Function | Container
  | Identifier | True | False | NumberLiteral | StringLiteral
  | Semicolon | Comma | OpenBracket | CloseBracket
  | OpenParentheses | CloseParentheses | OpenCurlyBrace | CloseCurlyBrace
  | Dot | Assignment | Equality | GreaterThan | GreaterEqualTo
  | LessThan | LessEqualTo | LogicalNot | LogicalNotEqualTo
  | LogicalOr | LogicalAnd | BitwiseOr | BitwiseAnd | BitwiseNot
  | SubtractEqual | AddEqual | MultiplyEqual | DivideEqual
  | Subtraction | Addition | Multiply | Divide
deriving DecidableEq, Repr

def Token.kind : Token → TokenKind
  | .If _ => .If
  | .Else _ => .Else
  | .Variable _ => .Variable
  | .For _ => .For
  | .Function _ => .Function
  | .Container _ => .Container
  | .Identifier _ _ => .Identifier
  | .True _ => .True
  | .False _ => .False
  | .NumberLiteral _ _ => .NumberLiteral
  | .StringLiteral _ _ => .StringLiteral
  | .Semicolon _ => .Semicolon
  | .Comma _ => .Comma
  | .OpenBracket _ => .OpenBracket
  | .CloseBracket _ => .CloseBracket
  | .OpenParentheses _ => .OpenParentheses
  | .CloseParentheses _ => .CloseParentheses
  | .OpenCurlyBrace _ => .OpenCurlyBrace
  | .CloseCurlyBrace _ => .CloseCurlyBrace
  | .Dot _ => .Dot
  | .Assignment _ => .Assignment
  | .Equality _ => .Equality
  | .GreaterThan _ => .GreaterThan
  | .GreaterEqualTo _ => .GreaterEqualTo
  | .LessThan _ => .LessThan
  | .LessEqualTo _ => .LessEqualTo
  | .LogicalNot _ => .LogicalNot
  | .LogicalNotEqualTo _ => .LogicalNotEqualTo
  | .LogicalOr _ => .LogicalOr
  | .LogicalAnd _ => .LogicalAnd
  | .BitwiseOr _ => .BitwiseOr
  | .BitwiseAnd _ => .BitwiseAnd
  | .BitwiseNot _ => .BitwiseNot
  | .SubtractEqual _ => .SubtractEqual
  | .AddEqual _ => .AddEqual
  | .MultiplyEqual _ => .MultiplyEqual
  | .DivideEqual _ => .DivideEqual
  | .Subtraction _ => .Subtraction
  | .Addition _ => .Addition
  | .Multiply _ => .Multiply
  | .Divide _ => .Divide

/-! ## Lexer (`src/lexer/mod.rs`)

The lexer's cursor state is `(input, line, column)`.  `read_char`
increments `column` before yielding the character, so when the cursor sits
on a character of 1-based column `k`, the `column` field holds `k`. -/

/-- `Lexer::is_letter`: alphabetic or underscore. -/
def isLetter (c : Char) : Bool := c.isAlpha || c = '_'

/-- `Lexer::is_ident_character`: letter or decimal digit. -/
def isIdentChar (c : Char) : Bool := isLetter c || c.isDigit

/-- `Lexer::skip_whitespace`: consume whitespace; a newline resets the
column to 1 and bumps the line (the Rust code increments the column on
`read_char` and then overwrites it with 1 for `'\n'`). -/
def skipWs : List Char → Nat → Nat → List Char × Nat × Nat
  | [], l, c => ([], l, c)
  | ch :: rest, l, c =>
    if ch.isWhitespace then
      if ch = '\n' then skipWs rest (l + 1) 1 else skipWs rest l (c + 1)
    else (ch :: rest, l, c)

/-- The run part of `Lexer::read_identifier` (the first, already consumed
character is prepended by the caller).  Returns the consumed run, the
remaining input and the updated column. -/
def readIdentAux : List Char → Nat → List Char × List Char × Nat
  | [], c => ([], [], c)
  | ch :: rest, c =>
    if isIdentChar ch then
      match readIdentAux rest (c + 1) with
      | (run, rem, c') => (ch :: run, rem, c')
    else ([], ch :: rest, c)

/-- The run part of `Lexer::read_number`. -/
def readNumberAux : List Char → Nat → List Char × List Char × Nat
  | [], c => ([], [], c)
  | ch :: rest, c =>
    if ch.isDigit then
      match readNumberAux rest (c + 1) with
      | (run, rem, c') => (ch :: run, rem, c')
    else ([], ch :: rest, c)

/-- `Lexer::read_string`: consume until an unescaped quote (a quote whose
previously consumed character, tracked in `last`, is not a backslash); the
terminating quote is consumed but not kept; the backslash stays in the
payload.  `last` starts as `'\0'` at the call site. -/
def readStringAux : List Char → Char → Nat → List Char × List Char × Nat
  | [], _, c => ([], [], c)
  | ch :: rest, last, c =>
    if ch = '"' && last ≠ '\\' then ([], rest, c + 1)
    else
      match readStringAux rest ch (c + 1) with
      | (s, rem, c') => (ch :: s, rem, c')

/-- The consuming loop of `Lexer::next_line` (line already bumped and
column already reset by the caller): read characters, bumping the column,
up to and including the next newline. -/
def nextLineAux : List Char → Nat → Nat → List Char × Nat × Nat
  | [], l, c => ([], l, c)
  | ch :: rest, l, c =>
    if ch = '\n' then (rest, l, c + 1) else nextLineAux rest l (c + 1)

/-- `Lexer::lookup_keyword`: classify an identifier run against the fixed
keyword table; the location is the current column minus the run length. -/
def lookupKeyword (ident : List Char) (col line : Nat) : Token :=
  if ident = "else".data then .Else ⟨col - ident.length, line⟩
  else if ident = "container".data then .Container ⟨col - ident.length, line⟩
  else if ident = "for".data then .For ⟨col - ident.length, line⟩
  else if ident = "if".data then .If ⟨col - ident.length, line⟩
  else if ident = "function".data then .Function ⟨col - ident.length, line⟩
  else if ident = "variable".data then .Variable ⟨col - ident.length, line⟩
  else if ident = "true".data then .True ⟨col - ident.length, line⟩
  else if ident = "false".data then .False ⟨col - ident.length, line⟩
  else .Identifier ⟨col - ident.length, line⟩ ⟨ident⟩

/-- The dispatch at the heart of `Lexer::next_token`, after
`skip_whitespace` has run: the state is `(input, line, column)`, the head
character is about to be consumed by `read_char` (so the column becomes
`c1 + 1`), and `recurse` is the lexer's recursive `next_token` call used
by the line-comment arm.  Factored out of `nextTokenF` so each arm is an
equation. -/
def nextTokenStep
    (recurse : List Char → Nat → Nat → Option (Token × List Char × Nat × Nat)) :
    List Char × Nat × Nat → Option (Token × List Char × Nat × Nat)
  | ([], _, _) => none
  | (ch :: rest, l1, c1) =>
      -- `read_char` has consumed `ch`; the column is now `c1 + 1`.
      if ch = '=' then
        if rest.head? = some '=' then some (.Equality ⟨c1 + 1 + 1 - 2, l1⟩, rest.tail, l1, c1 + 1 + 1)
        else some (.Assignment ⟨c1 + 1 - 1, l1⟩, rest, l1, c1 + 1)
      else if ch = '>' then
        if rest.head? = some '=' then some (.GreaterEqualTo ⟨c1 + 1 + 1 - 2, l1⟩, rest.tail, l1, c1 + 1 + 1)
        else some (.GreaterThan ⟨c1 + 1 - 1, l1⟩, rest, l1, c1 + 1)
      else if ch = '<' then
        if rest.head? = some '=' then some (.LessEqualTo ⟨c1 + 1 + 1 - 2, l1⟩, rest.tail, l1, c1 + 1 + 1)
        else some (.LessThan ⟨c1 + 1 - 1, l1⟩, rest, l1, c1 + 1)
      else if ch = '-' then
        if rest.head? = some '=' then some (.SubtractEqual ⟨c1 + 1 + 1 - 2, l1⟩, rest.tail, l1, c1 + 1 + 1)
        else some (.Subtraction ⟨c1 + 1 - 1, l1⟩, rest, l1, c1 + 1)
      else if ch = '+' then
        if rest.head? = some '=' then some (.AddEqual ⟨c1 + 1 + 1 - 2, l1⟩, rest.tail, l1, c1 + 1 + 1)
        else some (.Addition ⟨c1 + 1 - 1, l1⟩, rest, l1, c1 + 1)
      else if ch = '*' then
        if rest.head? = some '=' then some (.MultiplyEqual ⟨c1 + 1 + 1 - 2, l1⟩, rest.tail, l1, c1 + 1 + 1)
        else some (.Multiply ⟨c1 + 1 - 1, l1⟩, rest, l1, c1 + 1)
      else if ch = '/' then
        if rest.head? = some '=' then some (.DivideEqual ⟨c1 + 1 + 1 - 2, l1⟩, rest.tail, l1, c1 + 1 + 1)
        else if rest.head? = some '/' then
          -- `//` line comment: `next_line` (line += 1, column := 1, then
          -- consume through the newline) and recurse into the next token.
          match nextLineAux rest (l1 + 1) 1 with
          | (s', l', c') => recurse s' l' c'
        else some (.Divide ⟨c1 + 1 - 1, l1⟩, rest, l1, c1 + 1)
      else if ch = ',' then some (.Comma ⟨c1 + 1 - 1, l1⟩, rest, l1, c1 + 1)
      else if ch = '{' then some (.OpenCurlyBrace ⟨c1 + 1 - 1, l1⟩, rest, l1, c1 + 1)
      else if ch = '}' then some (.CloseCurlyBrace ⟨c1 + 1 - 1, l1⟩, rest, l1, c1 + 1)
      else if ch = '[' then some (.OpenBracket ⟨c1 + 1 - 1, l1⟩, rest, l1, c1 + 1)
      else if ch = ']' then some (.CloseBracket ⟨c1 + 1 - 1, l1⟩, rest, l1, c1 + 1)
      else if ch = '(' then some (.OpenParentheses ⟨c1 + 1 - 1, l1⟩, rest, l1, c1 + 1)
      else if ch = ')' then some (.CloseParentheses ⟨c1 + 1 - 1, l1⟩, rest, l1, c1 + 1)
      else if ch = ';' then some (.Semicolon ⟨c1 + 1 - 1, l1⟩, rest, l1, c1 + 1)
      else if ch = '"' then
        -- Argument order in the Rust source: the `Location` is built from
        -- the column *before* `read_string` runs, hence `c1 + 1 - 1` (= start).
        match readStringAux rest '\x00' (c1 + 1) with
        | (payload, rem, c3) => some (.StringLiteral ⟨c1 + 1 - 1, l1⟩ ⟨payload⟩, rem, l1, c3)
      else if ch = '.' then some (.Dot ⟨c1 + 1 - 1, l1⟩, rest, l1, c1 + 1)
      else if ch = '~' then some (.BitwiseNot ⟨c1 + 1 - 1, l1⟩, rest, l1, c1 + 1)
      else if ch = '!' then
        if rest.head? = some '=' then some (.LogicalNotEqualTo ⟨c1 + 1 + 1 - 2, l1⟩, rest.tail, l1, c1 + 1 + 1)
        else some (.LogicalNot ⟨c1 + 1 - 1, l1⟩, rest, l1, c1 + 1)
      else if ch = '&' then
        if rest.head? = some '&' then some (.LogicalAnd ⟨c1 + 1 + 1 - 2, l1⟩, rest.tail, l1, c1 + 1 + 1)
        else some (.BitwiseAnd ⟨c1 + 1 - 1, l1⟩, rest, l1, c1 + 1)
      else if ch = '|' then
        if rest.head? = some '|' then some (.LogicalOr ⟨c1 + 1 + 1 - 2, l1⟩, rest.tail, l1, c1 + 1 + 1)
        else some (.BitwiseOr ⟨c1 + 1 - 1, l1⟩, rest, l1, c1 + 1)
      else if isLetter ch then
        match readIdentAux rest (c1 + 1) with
        | (run, rem, c3) => some (lookupKeyword (ch :: run) c3 l1, rem, l1, c3)
      else if ch.isDigit then
        -- The `Location` argument is evaluated *before* `read_number`, and
        -- without the start-column subtraction: it records `c1 + 1`, i.e. the
        -- column one past the first digit.
        match readNumberAux rest (c1 + 1) with
        | (run, rem, c3) => some (.NumberLiteral ⟨c1 + 1, l1⟩ ⟨ch :: run⟩, rem, l1, c3)
      else none

/-- `Lexer::next_token`, fuel-indexed (the fuel only decreases on the
line-comment recursion, which consumes at least two characters, so a fuel
of `input.length + 1` can never run out).  Returns the token together with
the remaining input, line and column. -/
def nextTokenF : Nat → List Char → Nat → Nat → Option (Token × List Char × Nat × Nat)
  | 0, _, _, _ => none
  | fuel + 1, s, l, c => nextTokenStep (nextTokenF fuel) (skipWs s l c)

/-- The `Iterator` loop of `Lexer::lex`: collect tokens until `next_token`
yields `None`. -/
def lexAuxF : Nat → List Char → Nat → Nat → List Token
  | 0, _, _, _ => []
  | fuel + 1, s, l, c =>
    match nextTokenF (fuel + 1) s l c with
    | none => []
    | some (t, s', l', c') => t :: lexAuxF fuel s' l' c'

/-- `Lexer::new(content).lex()`: line and column both start at 1. -/
def lex (s : String) : List Token := lexAuxF (s.data.length + 1) s.data 1 1

/-! ## AST (`src/parser/expression/mod.rs`) -/

mutual
/-- The `Expression` enum, with `Container` and `Function` as in the
source. -/
inductive Expression where
  | VariableDeclaration (ty ident : String)
  | ContainerDeclaration (c : Container)
  | FunctionDeclaration (f : Function)
  | StringLiteral (s : String)
  | VariableAssignment (ty ident : String) (init : Option (List Expression))
  | Identifier (s : String)
  | Comment (s : String)
  | IntegerLiteral (s : String)

/-- `Container { name, variables }` (the field is called `variables` in the
source; `variable` is reserved in Lean, so it is `vars` here). -/
inductive Container where
  | mk (name : String) (vars : List Expression)

/-- `Function { name, arguments, body }`. -/
inductive Function where
  | mk (name : String) (arguments : List Expression) (body : List Expression)
end

/-- `Expression::assign_from_declaration`: convert a `VariableDeclaration`
plus an optional initializer into a `VariableAssignment`.  The Rust source
panics (`unreachable!`) on any other node shape; every caller passes a
`VariableDeclaration`, so the fall-through branch below is dead code and
merely keeps the function total. -/
def Expression.assign_from_declaration : Expression → Option (List Expression) → Expression
  | .VariableDeclaration ty ident, def_ => .VariableAssignment ty ident def_
  | e, _ => e

/-! ## Grammar engine (`src/parser/mod.rs`)

nom 5 three-valued results: `Ok((rest, value))`, `Err::Error` (recoverable,
caught by `alt` / `opt` / `many0`) and `Err::Failure` (produced by `cut`,
fatal).  The `context(...)` wrappers and the `println!` debug traces of the
source only affect diagnostics/side output, not the parse result, and are
dropped.  Loops (`many0`, `fold_many0`, `separated_list`) take a fuel of
`input.length + 1`; nom 5's own must-consume checks (`i1 == i`) guarantee
each iteration consumes, so the fuel never runs out on the paths the source
can take. -/

inductive PResult (α : Type) where
  | ok : List Char → α → PResult α
  | err : PResult α
  | fail : PResult α

abbrev PParser (α : Type) := List Char → PResult α

/-- nom `map`. -/
def pmap (p : PParser α) (f : α → β) : PParser β := fun i =>
  match p i with
  | .ok r v => .ok r (f v)
  | .err => .err
  | .fail => .fail

/-- nom `value`. -/
def pvalue (v : α) (p : PParser β) : PParser α := pmap p (fun _ => v)

/-- nom `preceded`. -/
def pseq2 (p : PParser α) (q : PParser β) : PParser β := fun i =>
  match p i with
  | .ok r _ => q r
  | .err => .err
  | .fail => .fail

/-- nom `terminated`. -/
def pfirst (p : PParser α) (q : PParser β) : PParser α := fun i =>
  match p i with
  | .ok r v =>
    match q r with
    | .ok r2 _ => .ok r2 v
    | .err => .err
    | .fail => .fail
  | .err => .err
  | .fail => .fail

/-- nom `pair` (and the 3-`tuple` via nesting). -/
def ppair (p : PParser α) (q : PParser β) : PParser (α × β) := fun i =>
  match p i with
  | .ok r v =>
    match q r with
    | .ok r2 w => .ok r2 (v, w)
    | .err => .err
    | .fail => .fail
  | .err => .err
  | .fail => .fail

/-- nom `delimited`. -/
def pdelim (l : PParser α) (p : PParser β) (r : PParser γ) : PParser β :=
  pfirst (pseq2 l p) r

/-- nom `alt` for two alternatives: the second runs only on a recoverable
error of the first. -/
def palt2 (p q : PParser α) : PParser α := fun i =>
  match p i with
  | .err => q i
  | r => r

def palt3 (p q r : PParser α) : PParser α := palt2 p (palt2 q r)

def palt5 (p q r s t : PParser α) : PParser α := palt2 p (palt2 q (palt2 r (palt2 s t)))

/-- nom `opt`: recoverable error becomes `none`, failure propagates. -/
def popt (p : PParser α) : PParser (Option α) := fun i =>
  match p i with
  | .ok r v => .ok r (some v)
  | .err => .ok i none
  | .fail => .fail

/-- nom `cut`: recoverable error becomes failure. -/
def pcut (p : PParser α) : PParser α := fun i =>
  match p i with
  | .err => .fail
  | r => r

/-- nom `verify`: keep a success only if the predicate accepts the value. -/
def pverify (p : PParser α) (f : α → Bool) : PParser α := fun i =>
  match p i with
  | .ok r v => if f v then .ok r v else .err
  | .err => .err
  | .fail => .fail

/-- nom `tag`. -/
def ptag (s : List Char) : PParser (List Char) := fun i =>
  if s.isPrefixOf i then .ok (i.drop s.length) s else .err

/-- nom `char`. -/
def pchar (c : Char) : PParser Char := fun i =>
  match i with
  | c' :: r => if c' = c then .ok r c else .err
  | [] => .err

/-- nom `take_while`: always succeeds, possibly consuming nothing. -/
def ptakeWhile (f : Char → Bool) : PParser (List Char) := fun i =>
  .ok (i.dropWhile f) (i.takeWhile f)

/-- nom `alphanumeric1`. -/
def palphanumeric1 : PParser (List Char) := fun i =>
  match i.takeWhile Char.isAlphanum with
  | [] => .err
  | t => .ok (i.drop t.length) t

/-- nom `multispace1`. -/
def pmultispace1 : PParser (List Char) := fun i =>
  match i.takeWhile Char.isWhitespace with
  | [] => .err
  | t => .ok (i.drop t.length) t

/-- nom `is_not`: the longest non-empty run avoiding the given characters. -/
def pisNot (bad : List Char) : PParser (List Char) := fun i =>
  match i.takeWhile (fun c => !bad.contains c) with
  | [] => .err
  | t => .ok (i.drop t.length) t

/-- `many0`, fuel-indexed, with nom 5's must-consume check. -/
def many0Aux (p : PParser α) : Nat → List Char → PResult (List α)
  | 0, _ => .err
  | fuel + 1, i =>
    match p i with
    | .err => .ok i []
    | .fail => .fail
    | .ok i1 o =>
      if i1 = i then .err
      else
        match many0Aux p fuel i1 with
        | .ok r acc => .ok r (o :: acc)
        | .err => .err
        | .fail => .fail

def pmany0 (p : PParser α) : PParser (List α) := fun i => many0Aux p (i.length + 1) i

/-- `fold_many0`, fuel-indexed, with nom 5's must-consume check. -/
def foldMany0Aux (p : PParser α) (g : β → α → β) : Nat → β → List Char → PResult β
  | 0, _, _ => .err
  | fuel + 1, acc, i =>
    match p i with
    | .err => .ok i acc
    | .fail => .fail
    | .ok i1 o =>
      if i1 = i then .err
      else foldMany0Aux p g fuel (g acc o) i1

def pfoldMany0 (p : PParser α) (init : β) (g : β → α → β) : PParser β := fun i =>
  foldMany0Aux p g (i.length + 1) init i

/-- The loop of nom 5 `separated_list` after the first item. -/
def sepListAux (sep : PParser γ) (p : PParser β) : Nat → List β → List Char → PResult (List β)
  | 0, _, _ => .err
  | fuel + 1, acc, i =>
    match sep i with
    | .err => .ok i acc.reverse
    | .fail => .fail
    | .ok i1 _ =>
      if i1 = i then .err
      else
        match p i1 with
        | .err => .ok i acc.reverse
        | .fail => .fail
        | .ok i2 o =>
          if i2 = i1 then .err
          else sepListAux sep p fuel (o :: acc) i2

/-- nom 5 `separated_list`. -/
def pseparatedList (sep : PParser γ) (p : PParser β) : PParser (List β) := fun i =>
  match p i with
  | .err => .ok i []
  | .fail => .fail
  | .ok i1 o => if i1 = i then .err else sepListAux sep p (i.length + 1) [o] i1

/-! ### The grammar's productions, in source order -/

/-- `parse_escaped_char`: a backslash followed by one of `n r t \ / "`. -/
def parse_escaped_char : PParser Char :=
  pseq2 (pchar '\\')
    (palt2 (pvalue '\n' (pchar 'n'))
      (palt2 (pvalue '\r' (pchar 'r'))
        (palt2 (pvalue '\t' (pchar 't'))
          (palt2 (pvalue '\\' (pchar '\\'))
            (palt2 (pvalue '/' (pchar '/')) (pvalue '"' (pchar '"')))))))

/-- `parse_escaped_whitespace`. -/
def parse_escaped_whitespace : PParser (List Char) :=
  pseq2 (pchar '\\') pmultispace1

/-- `parse_literal`: a non-empty run without `\` or `"`. -/
def parse_literal : PParser (List Char) :=
  pverify (pisNot ['"', '\\']) (fun s => !s.isEmpty)

inductive StringFragment where
  | Literal (s : List Char)
  | EscapedChar (c : Char)
  | EscapedWS

/-- `parse_fragment`. -/
def parse_fragment : PParser StringFragment :=
  palt3 (pmap parse_literal StringFragment.Literal)
    (pmap parse_escaped_char StringFragment.EscapedChar)
    (pvalue StringFragment.EscapedWS parse_escaped_whitespace)

/-- `parse_string`: `"` … fragments folded into a `String` … `"`. -/
def parse_string : PParser Expression :=
  pdelim (pchar '"')
    (pmap
      (pfoldMany0 parse_fragment ""
        (fun s f =>
          match f with
          | .Literal l => s ++ String.mk l
          | .EscapedChar c => s.push c
          | .EscapedWS => s))
      Expression.StringLiteral)
    (pchar '"')

/-- The grammar engine's whitespace alphabet `" \t\r\n"`. -/
def isSpaceP (c : Char) : Bool := c = ' ' || c = '\t' || c = '\r' || c = '\n'

/-- `space`: `take_while` over `" \t\r\n"` (possibly empty). -/
def space : PParser (List Char) := ptakeWhile isSpaceP

/-- `identifier`: whitespace, then an alphanumeric run whose first
character is alphabetic. -/
def identifier : PParser (List Char) :=
  pseq2 space
    (pverify palphanumeric1
      (fun s =>
        match s with
        | c :: _ => c.isAlpha
        | [] => false))

/-- `integer_literal`: whitespace, then a (possibly empty) digit run. -/
def integer_literal : PParser Expression :=
  pseq2 space (pmap (ptakeWhile Char.isDigit) (fun s => Expression.IntegerLiteral ⟨s⟩))

/-- `type`: one of the built-in type tags or any identifier. -/
def typeP : PParser (List Char) :=
  pseq2 space
    (palt5 (ptag "integer".data) (ptag "string".data) (ptag "boolean".data)
      (ptag "character".data) identifier)

/-- `variable_declaration`: `type identifier`. -/
def variable_declaration : PParser Expression :=
  pmap (ppair typeP identifier)
    (fun tv => Expression.VariableDeclaration ⟨tv.1⟩ ⟨tv.2⟩)

/-- `assignment`: `=` then (committed) one of integer / string /
identifier, each wrapped in a one-element vector. -/
def assignment : PParser (List Expression) :=
  pseq2 (pseq2 space (pchar '='))
    (pcut (pseq2 space
      (palt3 (pmap integer_literal (fun s => [s]))
        (pmap parse_string (fun s => [s]))
        (pmap identifier (fun s => [Expression.Identifier ⟨s⟩])))))

/-- `variable_definition`: a declaration, an optional assignment, then
`;` (whitespace-prefixed). -/
def variable_definition : PParser Expression :=
  pfirst
    (pmap (ppair variable_declaration (popt assignment))
      (fun p => Expression.assign_from_declaration p.1 p.2))
    (pseq2 space (ptag ";".data))

/-- `container_declaration` (the `container` keyword has already been
consumed by the caller): name, then `{ (variable_declaration ';')* }`;
note the `;` here is *not* whitespace-prefixed. -/
def container_declaration : PParser Container :=
  pmap
    (ppair identifier
      (pdelim (pseq2 space (pchar '{'))
        (pmany0 (pfirst variable_declaration (pchar ';')))
        (pseq2 space (pchar '}'))))
    (fun p => Container.mk ⟨p.1⟩ p.2)

/-- `comment`: whitespace, `//`, then (committed) the rest of the line. -/
def comment : PParser (List Char) :=
  pseq2 (pseq2 space (ptag "//".data)) (pcut (ptakeWhile (fun ch => ch ≠ '\n')))

/-- `scope`: `{ (comment | variable_definition | string)* }`. -/
def scope : PParser (List Expression) :=
  pdelim (pseq2 space (pchar '{'))
    (pmany0
      (palt3 (pmap comment (fun s => Expression.Comment ⟨s⟩))
        variable_definition
        parse_string))
    (pseq2 space (pchar '}'))

/-- `arguments`: `( variable_declaration,* )`. -/
def arguments : PParser (List Expression) :=
  pdelim (pseq2 space (pchar '('))
    (pseparatedList (pseq2 space (pchar ',')) (pseq2 space variable_declaration))
    (pseq2 space (pchar ')'))

/-- `function_declaration` (the `function` keyword has already been
consumed): name, arguments, scope. -/
def function_declaration : PParser Function :=
  pmap (ppair identifier (ppair arguments scope))
    (fun p => Function.mk ⟨p.1⟩ p.2.1 p.2.2)

/-- The top-level item tried by `parse`'s `many0`: leading whitespace, then
comment / committed container / committed function. -/
def topLevelItem : PParser Expression :=
  pseq2 space
    (palt3 (pmap comment (fun s => Expression.Comment ⟨s⟩))
      (pmap (pseq2 (ptag "container".data) (pcut container_declaration))
        Expression.ContainerDeclaration)
      (pmap (pseq2 (ptag "function".data) (pcut function_declaration))
        Expression.FunctionDeclaration))

/-- `parse`: `many0` over the top-level items. -/
def parse (content : List Char) : PResult (List Expression) :=
  pmany0 topLevelItem content

/-- The observable outcome of `Parser::from_content`: the owned expression
list on `Ok`, or the error case (`Err::Error` / `Err::Failure` both map to
`Err(diagnostic string)` in the source; no partial result accompanies it). -/
inductive ParseOutcome where
  | ok (expressions : List Expression)
  | error

/-- `Parser::from_content`. -/
def fromContent (s : String) : ParseOutcome :=
  match parse s.data with
  | .ok _ tree => .ok tree
  | .err => .error
  | .fail => .error

/-! ## Derived notions used by the claims -/

/-- The node kinds `parse` can emit at top level (used for claim C2). -/
def isTopLevel : Expression → Bool
  | .ContainerDeclaration _ => true
  | .FunctionDeclaration _ => true
  | .Comment _ => true
  | _ => false

/-- A token's payload string (empty for fixed-spelling tokens), as the
round-trip claim's "token payloads". -/
def payloadChars : Token → List Char
  | .Identifier _ p => p.data
  | .NumberLiteral _ p => p.data
  | .StringLiteral _ p => p.data
  | _ => []

/-- The in-order concatenation of all token payloads (claim C9 as stated). -/
def payloadConcat (ts : List Token) : List Char := (ts.map payloadChars).flatten

/-- A token's lexeme: the payload for identifiers and numbers, the quoted
payload for strings, the fixed spelling otherwise. -/
def renderToken : Token → List Char
  | .If _ => "if".data
  | .Else _ => "else".data
  | .Variable _ => "variable".data
  | .For _ => "for".data
  | .Function _ => "function".data
  | .Container _ => "container".data
  | .Identifier _ p => p.data
  | .True _ => "true".data
  | .False _ => "false".data
  | .NumberLiteral _ p => p.data
  | .StringLiteral _ p => '"' :: p.data ++ ['"']
  | .Semicolon _ => [';']
  | .Comma _ => [',']
  | .OpenBracket _ => ['[']
  | .CloseBracket _ => [']']
  | .OpenParentheses _ => ['(']
  | .CloseParentheses _ => [')']
  | .OpenCurlyBrace _ => ['{']
  | .CloseCurlyBrace _ => ['}']
  | .Dot _ => ['.']
  | .Assignment _ => ['=']
  | .Equality _ => "==".data
  | .GreaterThan _ => ['>']
  | .GreaterEqualTo _ => ">=".data
  | .LessThan _ => ['<']
  | .LessEqualTo _ => "<=".data
  | .LogicalNot _ => ['!']
  | .LogicalNotEqualTo _ => "!=".data
  | .LogicalOr _ => "||".data
  | .LogicalAnd _ => "&&".data
  | .BitwiseOr _ => ['|']
  | .BitwiseAnd _ => ['&']
  | .BitwiseNot _ => ['~']
  | .SubtractEqual _ => "-=".data
  | .AddEqual _ => "+=".data
  | .MultiplyEqual _ => "*=".data
  | .DivideEqual _ => "/=".data
  | .Subtraction _ => ['-']
  | .Addition _ => ['+']
  | .Multiply _ => ['*']
  | .Divide _ => ['/']

/-- The whitespace-separated concatenation of the tokens' lexemes. -/
def renderTokens : List Token → List Char
  | [] => []
  | [t] => renderToken t
  | t :: ts => renderToken t ++ ' ' :: renderTokens ts

/-- Membership in the fixed keyword table of `Lexer::lookup_keyword`. -/
def isKeyword (p : List Char) : Bool :=
  p = "else".data || p = "container".data || p = "for".data || p = "if".data
    || p = "function".data || p = "variable".data || p = "true".data || p = "false".data

/-- Well-formedness of an `Identifier` payload as the lexer produces it:
non-empty, letter-first, identifier characters throughout, not a keyword. -/
def identWF : List Char → Bool
  | [] => false
  | c :: rest => isLetter c && rest.all isIdentChar && !isKeyword (c :: rest)

/-- Well-formedness of a `NumberLiteral` payload: a non-empty digit run
(whose head, in particular, is not classified as a letter — the branch of
`next_token` that emits numbers sits below the identifier branch). -/
def numWF : List Char → Bool
  | [] => false
  | c :: rest => c.isDigit && !isLetter c && rest.all Char.isDigit

/-- Every quote in the list is immediately preceded by a backslash, where
`last` is the character preceding the list's head (the tracking variable of
`Lexer::read_string`). -/
def noUnescQuote : Char → List Char → Bool
  | _, [] => true
  | last, c :: rest => (!(c == '"') || (last == '\\')) && noUnescQuote c rest

/-- The invariants `Lexer::next_token` guarantees for the payload-carrying
tokens it emits. -/
def TokenWF : Token → Bool
  | .Identifier _ p => identWF p.data
  | .NumberLiteral _ p => numWF p.data
  | .StringLiteral _ p => noUnescQuote '\x00' p.data
  | _ => true

/-- A string payload that does not end in a backslash; false only for a
string truncated by end of input in mid-escape, since a *terminated*
string's final payload character can never be a backslash. -/
def strTermOK : Token → Bool
  | .StringLiteral _ p => !(p.data.getLast? == some '\\')
  | _ => true

end LittleLanguage

namespace LittleLanguage

/-! ## Supporting lemmas about the grammar engine -/

theorem dropWhile_idem (p : Char → Bool) (l : List Char) :
    (l.dropWhile p).dropWhile p = l.dropWhile p := by
  induction l with
  | nil => rfl
  | cons c t ih =>
    by_cases h : p c
    · simpa [List.dropWhile_cons, h] using ih
    · simp [List.dropWhile_cons, h]

/-- When the whitespace-stripped input starts with none of `//`,
`container`, `function`, the top-level alternative fails recoverably. -/
theorem topLevelItem_err (i : List Char)
    (h1 : "//".data.isPrefixOf (i.dropWhile isSpaceP) = false)
    (h2 : "container".data.isPrefixOf (i.dropWhile isSpaceP) = false)
    (h3 : "function".data.isPrefixOf (i.dropWhile isSpaceP) = false) :
    topLevelItem i = .err := by
  unfold topLevelItem comment
  simp [pseq2, space, ptakeWhile, palt3, palt2, pmap, ptag, h1, h2, h3, dropWhile_idem]

/-- `pmap` succeeds only by mapping a success of the underlying parser. -/
theorem pmap_ok {α β : Type} {p : PParser α} {f : α → β} {i r : List Char} {v : β}
    (h : pmap p f i = .ok r v) : ∃ w, p i = .ok r w ∧ v = f w := by
  unfold pmap at h
  cases hp : p i with
  | ok r' w =>
    rw [hp] at h
    exact ⟨w, by injection h with h1 h2; rw [h1], by injection h with h1 h2; rw [h2]⟩
  | err => rw [hp] at h; simp at h
  | fail => rw [hp] at h; simp at h

/-- Every element a `many0` loop accumulates is a value of its item
parser. -/
theorem many0Aux_mem {α : Type} (p : PParser α) (Q : α → Prop)
    (hp : ∀ i r v, p i = .ok r v → Q v) :
    ∀ (fuel : Nat) (i r : List Char) (es : List α),
      many0Aux p fuel i = .ok r es → ∀ e ∈ es, Q e := by
  intro fuel
  induction fuel with
  | zero => intro i r es h; simp [many0Aux] at h
  | succ n ih =>
    intro i r es h
    simp only [many0Aux] at h
    cases hpi : p i with
    | ok i1 o =>
      rw [hpi] at h
      by_cases hii : i1 = i
      · simp [hii] at h
      · simp only [if_neg hii] at h
        cases hrec : many0Aux p n i1 with
        | ok r2 acc =>
          rw [hrec] at h
          injection h with hr hes
          intro e he
          rw [← hes] at he
          rcases List.mem_cons.mp he with he | he
          · exact he ▸ hp i i1 o hpi
          · exact ih i1 r2 acc hrec e he
        | err => rw [hrec] at h; simp at h
        | fail => rw [hrec] at h; simp at h
    | err =>
      rw [hpi] at h
      injection h with hr hes
      intro e he
      rw [← hes] at he
      simp at he
    | fail => rw [hpi] at h; simp at h

/-- Anything the top-level alternative produces is a comment, a container
declaration or a function declaration. -/
theorem topLevelItem_shape (i r : List Char) (v : Expression)
    (h : topLevelItem i = .ok r v) : isTopLevel v = true := by
  unfold topLevelItem at h
  simp only [pseq2, space, ptakeWhile] at h
  unfold palt3 palt2 at h
  cases h1 : pmap comment (fun s => Expression.Comment ⟨s⟩) (i.dropWhile isSpaceP) with
  | ok r1 v1 =>
    rw [h1] at h
    injection h with hr hv
    obtain ⟨w, -, hw⟩ := pmap_ok h1
    rw [← hv, hw]
    rfl
  | fail => rw [h1] at h; simp at h
  | err =>
    rw [h1] at h
    cases h2 : pmap (pseq2 (ptag "container".data) (pcut container_declaration))
        Expression.ContainerDeclaration (i.dropWhile isSpaceP) with
    | ok r2 v2 =>
      rw [h2] at h
      injection h with hr hv
      obtain ⟨w, -, hw⟩ := pmap_ok h2
      rw [← hv, hw]
      rfl
    | fail => rw [h2] at h; simp at h
    | err =>
      rw [h2] at h
      obtain ⟨w, -, hw⟩ := pmap_ok h
      rw [hw]
      rfl

/-! ## Claim theorems: grammar engine -/

/-- C1 counterexample: on `widget foo {}` — an unrecognized top-level
keyword — `Parser::from_content` does *not* return its error variant: it
returns `Ok` with an empty expression list (the input is silently left
unconsumed). -/
theorem spec_c1_cex :
    fromContent "widget foo {}" = .ok [] ∧ fromContent "widget foo {}" ≠ .error := by
  refine ⟨rfl, fun h => ?_⟩
  have h' : ParseOutcome.ok ([] : List Expression) = .error := h
  exact ParseOutcome.noConfusion h'

/-- C1 amended: for any input whose whitespace-stripped text starts with
none of `//`, `container`, `function` (in particular an unrecognized
top-level keyword such as `widget`), `Parser::from_content` *succeeds* with
an empty top-level sequence; no partial declaration appears, and no error
is reported — the offending text is silently ignored, because `many0`
treats the uncommitted alternative failure as normal termination and
`from_content` never checks that all input was consumed. -/
theorem spec_c1_amended (s : String)
    (h1 : "//".data.isPrefixOf (s.data.dropWhile isSpaceP) = false)
    (h2 : "container".data.isPrefixOf (s.data.dropWhile isSpaceP) = false)
    (h3 : "function".data.isPrefixOf (s.data.dropWhile isSpaceP) = false) :
    fromContent s = .ok [] := by
  have htop := topLevelItem_err s.data h1 h2 h3
  unfold fromContent parse pmany0
  simp [many0Aux, htop]

/-- Witness for C1: the amended theorem applied at `widget foo {}`. -/
theorem spec_c1_witness :
    ("//".data.isPrefixOf ("widget foo {}".data.dropWhile isSpaceP) = false)
    ∧ ("container".data.isPrefixOf ("widget foo {}".data.dropWhile isSpaceP) = false)
    ∧ ("function".data.isPrefixOf ("widget foo {}".data.dropWhile isSpaceP) = false)
    ∧ fromContent "widget foo {}" = .ok [] :=
  ⟨by decide, by decide, by decide,
    spec_c1_amended "widget foo {}" (by decide) (by decide) (by decide)⟩

/-- C2 counterexample: a successful parse whose top-level sequence contains
a `Comment` node — neither a `ContainerDeclaration` nor a
`FunctionDeclaration`. -/
theorem spec_c2_cex :
    fromContent "//x" = .ok [.Comment "x"]
    ∧ isTopLevel (.Comment "x") = true
    ∧ (∀ c, Expression.Comment "x" ≠ .ContainerDeclaration c)
    ∧ (∀ f, Expression.Comment "x" ≠ .FunctionDeclaration f) :=
  ⟨rfl, rfl, fun _ h => Expression.noConfusion h, fun _ h => Expression.noConfusion h⟩

/-- C2 amended: on every successful parse, each element of the top-level
sequence returned by `Parser::from_content` is a `ContainerDeclaration`, a
`FunctionDeclaration` or a `Comment`; no other node kind occurs at top
level. -/
theorem spec_c2_amended (s : String) (es : List Expression)
    (h : fromContent s = .ok es) : ∀ e ∈ es, isTopLevel e = true := by
  unfold fromContent at h
  cases hp : parse s.data with
  | ok r tree =>
    rw [hp] at h
    injection h with hes
    rw [← hes]
    exact many0Aux_mem topLevelItem (fun v => isTopLevel v = true)
      (fun i r' v hv => topLevelItem_shape i r' v hv)
      (s.data.length + 1) s.data r tree hp
  | err => rw [hp] at h; exact ParseOutcome.noConfusion h
  | fail => rw [hp] at h; exact ParseOutcome.noConfusion h

/-- Witness for C2: the amended theorem applied to a concrete successful
parse. -/
theorem spec_c2_witness :
    fromContent "function f ( ) { }" = .ok [.FunctionDeclaration (.mk "f" [] [])]
    ∧ ∀ e ∈ [Expression.FunctionDeclaration (.mk "f" [] [])], isTopLevel e = true :=
  ⟨rfl, spec_c2_amended "function f ( ) { }" [.FunctionDeclaration (.mk "f" [] [])] rfl⟩

/-- C3 (code bug): a variable definition whose initializer is an identifier
or a string literal does not parse at all.  The `assignment` rule tries
`integer_literal` first, and `integer_literal` is built on `take_while`,
which succeeds on the *empty* digit run without consuming anything; the
string/identifier alternatives are therefore unreachable, and the required
`;` then fails to match, aborting the committed parse. -/
theorem spec_c3_eval :
    fromContent "function f ( ) { integer x = y ; }" = .error
    ∧ fromContent "function f ( ) \x7b string s = \"hi\" ; \x7d" = .error :=
  ⟨rfl, rfl⟩

/-- C4 counterexample: the statement `variable integer count = 5 ;` inside
a function scope makes the whole parse fail — the grammar engine has no
rule for the `variable` keyword (`variable` is taken as the *type* and
`integer` as the variable name, after which no `;` follows), so the claim's
input does not succeed. -/
theorem spec_c4_cex :
    fromContent "function f ( ) { variable integer count = 5 ; }" = .error := rfl

/-- C4 amended: without the `variable` keyword — `integer count = 5 ;`
inside a function scope — the parse succeeds and yields
`VariableAssignment("integer", "count", Some([IntegerLiteral("5")]))`. -/
theorem spec_c4_amended :
    fromContent "function f ( ) { integer count = 5 ; }" =
      .ok [.FunctionDeclaration (.mk "f" []
        [.VariableAssignment "integer" "count" (some [.IntegerLiteral "5"])])] := rfl

/-- C6 confirmed: a container body missing the trailing `;` on its last
field fails the whole parse fatally: once `container` has matched, `cut`
turns the body mismatch into `Err::Failure`, which `many0` propagates, and
`Parser::from_content` returns its error variant with no partial result. -/
theorem spec_c6 :
    parse "container P { integer x }".data = .fail
    ∧ fromContent "container P { integer x }" = .error :=
  ⟨rfl, rfl⟩

/-- C10 confirmed: inside a scope, `integer x = ;` parses successfully as
`VariableAssignment("integer", "x", Some([IntegerLiteral("")]))` — the
integer-literal alternative accepts an empty digit run, so a missing
expression after `=` is not a parse error. -/
theorem spec_c10 :
    scope "{ integer x = ; }".data =
      .ok [] [.VariableAssignment "integer" "x" (some [.IntegerLiteral ""])]
    ∧ fromContent "function f ( ) { integer x = ; }" =
      .ok [.FunctionDeclaration (.mk "f" []
        [.VariableAssignment "integer" "x" (some [.IntegerLiteral ""])])] :=
  ⟨rfl, rfl⟩

/-! ## Claim theorems: lexer (concrete evaluations) -/

/-- C5 (code bug): the token for `5` — whose first (and only) digit sits at
line 1, column 1 — carries `Location { column: 2, line: 1 }`: the
`NumberLiteral` arm of `Lexer::next_token` reads `self.column` *after* the
first digit has been consumed and without the start-column subtraction
every other arm performs, so the recorded column is off by one. -/
theorem spec_c5_eval :
    lex "5" = [.NumberLiteral ⟨2, 1⟩ "5"]
    ∧ lex ";" = [.Semicolon ⟨1, 1⟩] := by
  constructor <;> decide

/-- C8 confirmed: tokenizing `"a\"b"` does not terminate the string at the
escaped quote; the token ends at the first unescaped quote and the
backslash is retained, undecoded, in the payload `a\"b`. -/
theorem spec_c8 :
    lex "\"a\\\"b\"" = [.StringLiteral ⟨1, 1⟩ "a\\\"b"] := by
  decide

/-- C7 counterexample: positioned at `/` with a *differing* second
character `/`, the lexer does not emit the single-character `Divide` token
consuming one character, as the claim requires for every differing second
character: `//` starts a line comment, the rest of the line is discarded,
and no token at all is produced. -/
theorem spec_c7_cex :
    nextTokenF 2 "//".data 1 1 = none
    ∧ nextTokenF 2 "//".data 1 1 ≠ some (.Divide ⟨1, 1⟩, ['/'], 1, 2)
    ∧ lex "// rest" = [] := by
  refine ⟨by decide, by decide, by decide⟩

/-- C7 amended: positioned at any of the ten two-character operator
lexemes, the lexer consumes both characters and emits the corresponding
two-character token; when the second character differs it emits the
corresponding single-character token consuming only the first character —
*except* `/` followed by `/`, which begins a line comment and emits no
`Divide` token (see the counterexample).  Locations and cursor arithmetic
are included: a token starting at column `c` carries column `c`. -/
theorem spec_c7_amended :
    (∀ (fuel : Nat) (rest : List Char) (l c : Nat),
      nextTokenF (fuel+1) ('=' :: '=' :: rest) l c = some (.Equality ⟨c, l⟩, rest, l, c+2))
    ∧ (∀ (fuel : Nat) (rest : List Char) (l c : Nat),
      nextTokenF (fuel+1) ('>' :: '=' :: rest) l c = some (.GreaterEqualTo ⟨c, l⟩, rest, l, c+2))
    ∧ (∀ (fuel : Nat) (rest : List Char) (l c : Nat),
      nextTokenF (fuel+1) ('<' :: '=' :: rest) l c = some (.LessEqualTo ⟨c, l⟩, rest, l, c+2))
    ∧ (∀ (fuel : Nat) (rest : List Char) (l c : Nat),
      nextTokenF (fuel+1) ('-' :: '=' :: rest) l c = some (.SubtractEqual ⟨c, l⟩, rest, l, c+2))
    ∧ (∀ (fuel : Nat) (rest : List Char) (l c : Nat),
      nextTokenF (fuel+1) ('+' :: '=' :: rest) l c = some (.AddEqual ⟨c, l⟩, rest, l, c+2))
    ∧ (∀ (fuel : Nat) (rest : List Char) (l c : Nat),
      nextTokenF (fuel+1) ('*' :: '=' :: rest) l c = some (.MultiplyEqual ⟨c, l⟩, rest, l, c+2))
    ∧ (∀ (fuel : Nat) (rest : List Char) (l c : Nat),
      nextTokenF (fuel+1) ('/' :: '=' :: rest) l c = some (.DivideEqual ⟨c, l⟩, rest, l, c+2))
    ∧ (∀ (fuel : Nat) (rest : List Char) (l c : Nat),
      nextTokenF (fuel+1) ('!' :: '=' :: rest) l c = some (.LogicalNotEqualTo ⟨c, l⟩, rest, l, c+2))
    ∧ (∀ (fuel : Nat) (rest : List Char) (l c : Nat),
      nextTokenF (fuel+1) ('&' :: '&' :: rest) l c = some (.LogicalAnd ⟨c, l⟩, rest, l, c+2))
    ∧ (∀ (fuel : Nat) (rest : List Char) (l c : Nat),
      nextTokenF (fuel+1) ('|' :: '|' :: rest) l c = some (.LogicalOr ⟨c, l⟩, rest, l, c+2))
    ∧ (∀ (fuel : Nat) (d : Char) (rest : List Char) (l c : Nat), d ≠ '=' →
      nextTokenF (fuel+1) ('=' :: d :: rest) l c = some (.Assignment ⟨c, l⟩, d :: rest, l, c+1))
    ∧ (∀ (fuel : Nat) (d : Char) (rest : List Char) (l c : Nat), d ≠ '=' →
      nextTokenF (fuel+1) ('>' :: d :: rest) l c = some (.GreaterThan ⟨c, l⟩, d :: rest, l, c+1))
    ∧ (∀ (fuel : Nat) (d : Char) (rest : List Char) (l c : Nat), d ≠ '=' →
      nextTokenF (fuel+1) ('<' :: d :: rest) l c = some (.LessThan ⟨c, l⟩, d :: rest, l, c+1))
    ∧ (∀ (fuel : Nat) (d : Char) (rest : List Char) (l c : Nat), d ≠ '=' →
      nextTokenF (fuel+1) ('-' :: d :: rest) l c = some (.Subtraction ⟨c, l⟩, d :: rest, l, c+1))
    ∧ (∀ (fuel : Nat) (d : Char) (rest : List Char) (l c : Nat), d ≠ '=' →
      nextTokenF (fuel+1) ('+' :: d :: rest) l c = some (.Addition ⟨c, l⟩, d :: rest, l, c+1))
    ∧ (∀ (fuel : Nat) (d : Char) (rest : List Char) (l c : Nat), d ≠ '=' →
      nextTokenF (fuel+1) ('*' :: d :: rest) l c = some (.Multiply ⟨c, l⟩, d :: rest, l, c+1))
    ∧ (∀ (fuel : Nat) (d : Char) (rest : List Char) (l c : Nat), d ≠ '=' → d ≠ '/' →
      nextTokenF (fuel+1) ('/' :: d :: rest) l c = some (.Divide ⟨c, l⟩, d :: rest, l, c+1))
    ∧ (∀ (fuel : Nat) (d : Char) (rest : List Char) (l c : Nat), d ≠ '=' →
      nextTokenF (fuel+1) ('!' :: d :: rest) l c = some (.LogicalNot ⟨c, l⟩, d :: rest, l, c+1))
    ∧ (∀ (fuel : Nat) (d : Char) (rest : List Char) (l c : Nat), d ≠ '&' →
      nextTokenF (fuel+1) ('&' :: d :: rest) l c = some (.BitwiseAnd ⟨c, l⟩, d :: rest, l, c+1))
    ∧ (∀ (fuel : Nat) (d : Char) (rest : List Char) (l c : Nat), d ≠ '|' →
      nextTokenF (fuel+1) ('|' :: d :: rest) l c = some (.BitwiseOr ⟨c, l⟩, d :: rest, l, c+1)) := by
  refine ⟨?_, ?_, ?_, ?_, ?_, ?_, ?_, ?_, ?_, ?_, ?_, ?_, ?_, ?_, ?_, ?_, ?_, ?_, ?_, ?_⟩
  · intro fuel rest l c; simp [nextTokenF, nextTokenStep, skipWs]
  · intro fuel rest l c; simp [nextTokenF, nextTokenStep, skipWs]
  · intro fuel rest l c; simp [nextTokenF, nextTokenStep, skipWs]
  · intro fuel rest l c; simp [nextTokenF, nextTokenStep, skipWs]
  · intro fuel rest l c; simp [nextTokenF, nextTokenStep, skipWs]
  · intro fuel rest l c; simp [nextTokenF, nextTokenStep, skipWs]
  · intro fuel rest l c; simp [nextTokenF, nextTokenStep, skipWs]
  · intro fuel rest l c; simp [nextTokenF, nextTokenStep, skipWs]
  · intro fuel rest l c; simp [nextTokenF, nextTokenStep, skipWs]
  · intro fuel rest l c; simp [nextTokenF, nextTokenStep, skipWs]
  · intro fuel d rest l c hd; simp [nextTokenF, nextTokenStep, skipWs, hd]
  · intro fuel d rest l c hd; simp [nextTokenF, nextTokenStep, skipWs, hd]
  · intro fuel d rest l c hd; simp [nextTokenF, nextTokenStep, skipWs, hd]
  · intro fuel d rest l c hd; simp [nextTokenF, nextTokenStep, skipWs, hd]
  · intro fuel d rest l c hd; simp [nextTokenF, nextTokenStep, skipWs, hd]
  · intro fuel d rest l c hd; simp [nextTokenF, nextTokenStep, skipWs, hd]
  · intro fuel d rest l c hd1 hd2; simp [nextTokenF, nextTokenStep, skipWs, hd1, hd2]
  · intro fuel d rest l c hd; simp [nextTokenF, nextTokenStep, skipWs, hd]
  · intro fuel d rest l c hd; simp [nextTokenF, nextTokenStep, skipWs, hd]
  · intro fuel d rest l c hd; simp [nextTokenF, nextTokenStep, skipWs, hd]

/-- Witness for C7: the amended theorem applied at concrete inputs — `==`
as one `Equality` token, and `=x` as an `Assignment` token consuming only
the `=`. -/
theorem spec_c7_witness :
    nextTokenF 1 ['=', '='] 1 1 = some (.Equality ⟨1, 1⟩, [], 1, 3)
    ∧ (('x' : Char) ≠ '='
      ∧ nextTokenF 1 ['=', 'x'] 1 1 = some (.Assignment ⟨1, 1⟩, ['x'], 1, 2)) :=
  ⟨spec_c7_amended.1 0 [] 1 1,
    by decide,
    (spec_c7_amended.2.2.2.2.2.2.2.2.2.2).1 0 'x' [] 1 1 (by decide)⟩

/-! ## Supporting lemmas about the lexer (towards the round-trip claim) -/

/-- A character satisfying a predicate differs from any character that
falsifies it. -/
theorem ne_of_pred {p : Char → Bool} {c x : Char} (h : p c = true)
    (hx : p x = false) : c ≠ x := by
  intro he
  rw [he] at h
  rw [h] at hx
  exact Bool.noConfusion hx

theorem isLetter_not_ws {c : Char} (h : isLetter c = true) :
    c.isWhitespace = false := by
  have n1 : c ≠ ' ' := ne_of_pred h (by decide)
  have n2 : c ≠ '\t' := ne_of_pred h (by decide)
  have n3 : c ≠ '\r' := ne_of_pred h (by decide)
  have n4 : c ≠ '\n' := ne_of_pred h (by decide)
  simp [Char.isWhitespace, n1, n2, n3, n4]

theorem isDigit_not_ws {c : Char} (h : c.isDigit = true) :
    c.isWhitespace = false := by
  have n1 : c ≠ ' ' := ne_of_pred h (by decide)
  have n2 : c ≠ '\t' := ne_of_pred h (by decide)
  have n3 : c ≠ '\r' := ne_of_pred h (by decide)
  have n4 : c ≠ '\n' := ne_of_pred h (by decide)
  simp [Char.isWhitespace, n1, n2, n3, n4]

/-- `read_identifier` consumes exactly a well-formed run when the input
continues with nothing or a space. -/
theorem readIdentAux_append (xs rest : List Char) (c : Nat)
    (hxs : ∀ x ∈ xs, isIdentChar x = true)
    (hrest : rest = [] ∨ ∃ r, rest = ' ' :: r) :
    readIdentAux (xs ++ rest) c = (xs, rest, c + xs.length) := by
  induction xs generalizing c with
  | nil =>
    rcases hrest with rfl | ⟨r, rfl⟩
    · simp [readIdentAux]
    · rw [List.nil_append, readIdentAux, if_neg (by decide)]
      simp
  | cons x xs ih =>
    have hx : isIdentChar x = true := hxs x (List.mem_cons_self x xs)
    have ih' := ih (c + 1) (fun y hy => hxs y (List.mem_cons_of_mem _ hy))
    rw [List.cons_append, readIdentAux, if_pos hx, ih']
    have harith : c + 1 + xs.length = c + (xs.length + 1) := by omega
    show (x :: xs, rest, c + 1 + xs.length) = (x :: xs, rest, c + (xs.length + 1))
    rw [harith]

/-- `read_number` consumes exactly a digit run when the input continues
with nothing or a space. -/
theorem readNumberAux_append (xs rest : List Char) (c : Nat)
    (hxs : ∀ x ∈ xs, x.isDigit = true)
    (hrest : rest = [] ∨ ∃ r, rest = ' ' :: r) :
    readNumberAux (xs ++ rest) c = (xs, rest, c + xs.length) := by
  induction xs generalizing c with
  | nil =>
    rcases hrest with rfl | ⟨r, rfl⟩
    · simp [readNumberAux]
    · rw [List.nil_append, readNumberAux, if_neg (by decide)]
      simp
  | cons x xs ih =>
    have hx : x.isDigit = true := hxs x (List.mem_cons_self x xs)
    have ih' := ih (c + 1) (fun y hy => hxs y (List.mem_cons_of_mem _ hy))
    rw [List.cons_append, readNumberAux, if_pos hx, ih']
    have harith : c + 1 + xs.length = c + (xs.length + 1) := by omega
    show (x :: xs, rest, c + 1 + xs.length) = (x :: xs, rest, c + (xs.length + 1))
    rw [harith]

/-- `read_string` consumes exactly a payload whose quotes are all escaped
and which does not end mid-escape, stopping at the closing quote. -/
theorem readStringAux_append (p : List Char) :
    ∀ (rest : List Char) (last : Char) (c : Nat),
      noUnescQuote last p = true → p.getLastD last ≠ '\\' →
      readStringAux (p ++ '"' :: rest) last c = (p, rest, c + p.length + 1) := by
  induction p with
  | nil =>
    intro rest last c _ hlast
    simp only [List.getLastD] at hlast
    simp [readStringAux, hlast]
  | cons x xs ih =>
    intro rest last c hq hlast
    simp only [noUnescQuote, Bool.and_eq_true] at hq
    have hq2 : noUnescQuote x xs = true := hq.2
    have hlast' : xs.getLastD x ≠ '\\' := by
      rwa [List.getLastD_cons] at hlast
    have hcond : (decide (x = '"') && decide (last ≠ '\\')) = false := by
      by_cases hx : x = '"'
      · have hl : last = '\\' := by
          rcases Bool.or_eq_true_iff.mp hq.1 with h' | h'
          · exfalso
            rw [Bool.not_eq_eq_eq_not] at h'
            simp only [Bool.not_true] at h'
            rw [beq_eq_false_iff_ne] at h'
            exact h' hx
          · simpa using h'
        simp [hl]
      · simp [hx]
    have ih' := ih rest x (c + 1) hq2 hlast'
    rw [List.cons_append, readStringAux, hcond]
    simp only [Bool.false_eq_true, if_false]
    rw [ih']
    have harith : c + 1 + xs.length + 1 = c + (xs.length + 1) + 1 := by omega
    show (x :: xs, rest, c + 1 + xs.length + 1) = (x :: xs, rest, c + (xs.length + 1) + 1)
    rw [harith]

/-- The run `read_identifier` collects consists of identifier characters. -/
theorem readIdentAux_all (s : List Char) : ∀ (c : Nat),
    (readIdentAux s c).1.all isIdentChar = true := by
  induction s with
  | nil => intro c; rfl
  | cons x xs ih =>
    intro c
    by_cases hx : isIdentChar x = true
    · rw [readIdentAux, if_pos hx]
      rcases hxx : readIdentAux xs (c + 1) with ⟨run, rem, c'⟩
      have hrun := ih (c + 1)
      rw [hxx] at hrun
      simpa [List.all_cons, hx] using hrun
    · rw [readIdentAux, if_neg hx]
      rfl

/-- The run `read_number` collects consists of digits. -/
theorem readNumberAux_all (s : List Char) : ∀ (c : Nat),
    (readNumberAux s c).1.all Char.isDigit = true := by
  induction s with
  | nil => intro c; rfl
  | cons x xs ih =>
    intro c
    by_cases hx : x.isDigit = true
    · rw [readNumberAux, if_pos hx]
      rcases hxx : readNumberAux xs (c + 1) with ⟨run, rem, c'⟩
      have hrun := ih (c + 1)
      rw [hxx] at hrun
      simpa [List.all_cons, hx] using hrun
    · rw [readNumberAux, if_neg hx]
      rfl

/-- In the payload `read_string` collects, every quote is preceded by a
backslash (relative to the incoming `last` character). -/
theorem readStringAux_noUnesc (s : List Char) : ∀ (last : Char) (c : Nat),
    noUnescQuote last (readStringAux s last c).1 = true := by
  induction s with
  | nil => intro last c; rfl
  | cons x xs ih =>
    intro last c
    by_cases hcond : (decide (x = '"') && decide (last ≠ '\\')) = true
    · rw [readStringAux, if_pos hcond]
      rfl
    · have hcond' : (decide (x = '"') && decide (last ≠ '\\')) = false := by
        revert hcond; cases (decide (x = '"') && decide (last ≠ '\\')) <;> simp
      rw [readStringAux,
        if_neg (by intro hcc; rw [hcc] at hcond'; exact Bool.noConfusion hcond')]
      rcases hxx : readStringAux xs x (c + 1) with ⟨p, rem, c'⟩
      have hp := ih x (c + 1)
      rw [hxx] at hp
      have hfirst : (!(x == '"') || (last == '\\')) = true := by
        by_cases hx : x = '"'
        · subst hx
          have hlast : last = '\\' := by simpa using hcond'
          simp [hlast]
        · simp [hx]
      simp only [noUnescQuote, Bool.and_eq_true]
      exact ⟨hfirst, hp⟩

/-- Helper: extract the payload invariant of a `read_identifier` call from
its result equation. -/
theorem runWF_of_readIdent {rest : List Char} {c : Nat} {run rem : List Char} {c3 : Nat}
    (heq : readIdentAux rest c = (run, rem, c3)) : run.all isIdentChar = true := by
  have h := readIdentAux_all rest c
  rw [heq] at h
  exact h

theorem runWF_of_readNumber {rest : List Char} {c : Nat} {run rem : List Char} {c3 : Nat}
    (heq : readNumberAux rest c = (run, rem, c3)) : run.all Char.isDigit = true := by
  have h := readNumberAux_all rest c
  rw [heq] at h
  exact h

theorem strWF_of_readString {rest : List Char} {last : Char} {c : Nat}
    {p rem : List Char} {c3 : Nat}
    (heq : readStringAux rest last c = (p, rem, c3)) : noUnescQuote last p = true := by
  have h := readStringAux_noUnesc rest last c
  rw [heq] at h
  exact h

/-- `lookup_keyword` on a non-keyword run returns an `Identifier`. -/
theorem lookupKeyword_not_kw (p : List Char) (col line : Nat)
    (h : isKeyword p = false) :
    lookupKeyword p col line = .Identifier ⟨col - p.length, line⟩ ⟨p⟩ := by
  have h1 : p ≠ "else".data := by intro he; rw [he] at h; exact absurd h (by decide)
  have h2 : p ≠ "container".data := by intro he; rw [he] at h; exact absurd h (by decide)
  have h3 : p ≠ "for".data := by intro he; rw [he] at h; exact absurd h (by decide)
  have h4 : p ≠ "if".data := by intro he; rw [he] at h; exact absurd h (by decide)
  have h5 : p ≠ "function".data := by intro he; rw [he] at h; exact absurd h (by decide)
  have h6 : p ≠ "variable".data := by intro he; rw [he] at h; exact absurd h (by decide)
  have h7 : p ≠ "true".data := by intro he; rw [he] at h; exact absurd h (by decide)
  have h8 : p ≠ "false".data := by intro he; rw [he] at h; exact absurd h (by decide)
  rw [lookupKeyword, if_neg h1, if_neg h2, if_neg h3, if_neg h4, if_neg h5, if_neg h6,
    if_neg h7, if_neg h8]

/-- `lookup_keyword` always emits a token satisfying the payload
invariants, given a well-formed incoming run. -/
theorem lookupKeyword_wf (ch : Char) (run : List Char) (col line : Nat)
    (hch : isLetter ch = true) (hrun : run.all isIdentChar = true) :
    TokenWF (lookupKeyword (ch :: run) col line) = true := by
  rw [lookupKeyword]
  split_ifs with h1 h2 h3 h4 h5 h6 h7 h8
  · rfl
  · rfl
  · rfl
  · rfl
  · rfl
  · rfl
  · rfl
  · rfl
  · have hcont : isKeyword (ch :: run) = false := by
      simp [isKeyword, h1, h2, h3, h4, h5, h6, h7, h8]
    simp [TokenWF, identWF, hch, hrun, hcont]

/-- Transfers `TokenWF` through the `some`-tuple equation of a
`next_token` leaf. -/
theorem wf_of_some {TOK t : Token} {rem s' : List Char} {l1 c2 l' c' : Nat}
    (h : (some (TOK, rem, l1, c2) : Option (Token × List Char × Nat × Nat))
      = some (t, s', l', c'))
    (hTOK : TokenWF TOK = true) : TokenWF t = true := by
  have h1 : TOK = t := congrArg Prod.fst (Option.some.inj h)
  exact h1 ▸ hTOK

/-- Auxiliary step for the number leaf. -/
theorem numWF_of {ch : Char} {rest : List Char} {c : Nat} {run rem : List Char} {c3 : Nat}
    (hd : ch.isDigit = true) (hnl : ¬ isLetter ch = true)
    (heq : readNumberAux rest c = (run, rem, c3)) : numWF (ch :: run) = true := by
  have hl : isLetter ch = false := by revert hnl; cases isLetter ch <;> simp
  have hall := runWF_of_readNumber heq
  simp [numWF, hd, hl, hall]

/-- Every token `next_token` emits satisfies the payload invariants. -/
theorem nextTokenF_wf : ∀ (fuel : Nat) (s : List Char) (l c : Nat) (t : Token)
    (s' : List Char) (l' c' : Nat),
    nextTokenF fuel s l c = some (t, s', l', c') → TokenWF t = true := by
  intro fuel
  induction fuel with
  | zero => intro s l c t s' l' c' h; exact absurd h (by simp [nextTokenF])
  | succ n ih =>
    intro s l c t s' l' c' h
    simp only [nextTokenF] at h
    rcases hsw : skipWs s l c with ⟨s1, l1, c1⟩
    rw [hsw] at h
    cases s1 with
    | nil => exact absurd h (by simp [nextTokenStep])
    | cons ch rest =>
    rw [nextTokenStep] at h
    by_cases h1 : ch = '='
    · rw [if_pos h1] at h
      by_cases hh : rest.head? = some '='
      · rw [if_pos hh] at h; exact wf_of_some h rfl
      · rw [if_neg hh] at h; exact wf_of_some h rfl
    rw [if_neg h1] at h
    by_cases h2 : ch = '>'
    · rw [if_pos h2] at h
      by_cases hh : rest.head? = some '='
      · rw [if_pos hh] at h; exact wf_of_some h rfl
      · rw [if_neg hh] at h; exact wf_of_some h rfl
    rw [if_neg h2] at h
    by_cases h3 : ch = '<'
    · rw [if_pos h3] at h
      by_cases hh : rest.head? = some '='
      · rw [if_pos hh] at h; exact wf_of_some h rfl
      · rw [if_neg hh] at h; exact wf_of_some h rfl
    rw [if_neg h3] at h
    by_cases h4 : ch = '-'
    · rw [if_pos h4] at h
      by_cases hh : rest.head? = some '='
      · rw [if_pos hh] at h; exact wf_of_some h rfl
      · rw [if_neg hh] at h; exact wf_of_some h rfl
    rw [if_neg h4] at h
    by_cases h5 : ch = '+'
    · rw [if_pos h5] at h
      by_cases hh : rest.head? = some '='
      · rw [if_pos hh] at h; exact wf_of_some h rfl
      · rw [if_neg hh] at h; exact wf_of_some h rfl
    rw [if_neg h5] at h
    by_cases h6 : ch = '*'
    · rw [if_pos h6] at h
      by_cases hh : rest.head? = some '='
      · rw [if_pos hh] at h; exact wf_of_some h rfl
      · rw [if_neg hh] at h; exact wf_of_some h rfl
    rw [if_neg h6] at h
    by_cases h7 : ch = '/'
    · rw [if_pos h7] at h
      by_cases hh : rest.head? = some '='
      · rw [if_pos hh] at h; exact wf_of_some h rfl
      · rw [if_neg hh] at h
        by_cases hh2 : rest.head? = some '/'
        · rw [if_pos hh2] at h
          rcases hnl : nextLineAux rest (l1 + 1) 1 with ⟨s2, l2, c2⟩
          rw [hnl] at h
          exact ih s2 l2 c2 t s' l' c' h
        · rw [if_neg hh2] at h; exact wf_of_some h rfl
    rw [if_neg h7] at h
    by_cases h8 : ch = ','
    · rw [if_pos h8] at h; exact wf_of_some h rfl
    rw [if_neg h8] at h
    by_cases h9 : ch = '{'
    · rw [if_pos h9] at h; exact wf_of_some h rfl
    rw [if_neg h9] at h
    by_cases h10 : ch = '}'
    · rw [if_pos h10] at h; exact wf_of_some h rfl
    rw [if_neg h10] at h
    by_cases h11 : ch = '['
    · rw [if_pos h11] at h; exact wf_of_some h rfl
    rw [if_neg h11] at h
    by_cases h12 : ch = ']'
    · rw [if_pos h12] at h; exact wf_of_some h rfl
    rw [if_neg h12] at h
    by_cases h13 : ch = '('
    · rw [if_pos h13] at h; exact wf_of_some h rfl
    rw [if_neg h13] at h
    by_cases h14 : ch = ')'
    · rw [if_pos h14] at h; exact wf_of_some h rfl
    rw [if_neg h14] at h
    by_cases h15 : ch = ';'
    · rw [if_pos h15] at h; exact wf_of_some h rfl
    rw [if_neg h15] at h
    by_cases h16 : ch = '"'
    · rw [if_pos h16] at h
      rcases hrs : readStringAux rest '\x00' (c1 + 1) with ⟨payload, rem, c3⟩
      rw [hrs] at h
      exact wf_of_some h (strWF_of_readString hrs)
    rw [if_neg h16] at h
    by_cases h17 : ch = '.'
    · rw [if_pos h17] at h; exact wf_of_some h rfl
    rw [if_neg h17] at h
    by_cases h18 : ch = '~'
    · rw [if_pos h18] at h; exact wf_of_some h rfl
    rw [if_neg h18] at h
    by_cases h19 : ch = '!'
    · rw [if_pos h19] at h
      by_cases hh : rest.head? = some '='
      · rw [if_pos hh] at h; exact wf_of_some h rfl
      · rw [if_neg hh] at h; exact wf_of_some h rfl
    rw [if_neg h19] at h
    by_cases h20 : ch = '&'
    · rw [if_pos h20] at h
      by_cases hh : rest.head? = some '&'
      · rw [if_pos hh] at h; exact wf_of_some h rfl
      · rw [if_neg hh] at h; exact wf_of_some h rfl
    rw [if_neg h20] at h
    by_cases h21 : ch = '|'
    · rw [if_pos h21] at h
      by_cases hh : rest.head? = some '|'
      · rw [if_pos hh] at h; exact wf_of_some h rfl
      · rw [if_neg hh] at h; exact wf_of_some h rfl
    rw [if_neg h21] at h
    by_cases h22 : isLetter ch = true
    · rw [if_pos h22] at h
      rcases hri : readIdentAux rest (c1 + 1) with ⟨run, rem, c3⟩
      rw [hri] at h
      exact wf_of_some h (lookupKeyword_wf ch run c3 l1 h22 (runWF_of_readIdent hri))
    rw [if_neg h22] at h
    by_cases h23 : ch.isDigit = true
    · rw [if_pos h23] at h
      rcases hrn : readNumberAux rest (c1 + 1) with ⟨run, rem, c3⟩
      rw [hrn] at h
      exact wf_of_some h (numWF_of h23 h22 hrn)
    rw [if_neg h23] at h
    exact absurd h (by simp)

/-- `skip_whitespace` does not move over a non-whitespace head. -/
theorem skipWs_not_ws {ch : Char} (h : ch.isWhitespace = false)
    (rest : List Char) (l c : Nat) : skipWs (ch :: rest) l c = (ch :: rest, l, c) := by
  rw [skipWs, if_neg (by intro hcc; rw [hcc] at h; exact Bool.noConfusion h)]

/-- `skip_whitespace` consumes a leading space, bumping the column. -/
theorem skipWs_space (r : List Char) (l c : Nat) :
    skipWs (' ' :: r) l c = skipWs r l (c + 1) := by
  rw [skipWs, if_pos (by decide), if_neg (by decide)]

/-- `next_token` is insensitive to a leading space except for the column. -/
theorem nextTokenF_space (fuel : Nat) (r : List Char) (l c : Nat) :
    nextTokenF fuel (' ' :: r) l c = nextTokenF fuel r l (c + 1) := by
  cases fuel with
  | zero => rfl
  | succ n => rw [nextTokenF, nextTokenF, skipWs_space]

theorem lexAuxF_nil (fuel l c : Nat) : lexAuxF fuel [] l c = [] := by
  cases fuel with
  | zero => rfl
  | succ n => rfl

theorem lexAuxF_space (fuel : Nat) (r : List Char) (l c : Nat) :
    lexAuxF fuel (' ' :: r) l c = lexAuxF fuel r l (c + 1) := by
  cases fuel with
  | zero => rfl
  | succ n => rw [lexAuxF, lexAuxF, nextTokenF_space]

/-- Dispatch of `next_token` on a letter-initial input: the identifier arm
runs. -/
theorem nextTokenF_letter {ch : Char} (hl : isLetter ch = true)
    (fuel : Nat) (rest : List Char) (l c : Nat) {run rem : List Char} {c3 : Nat}
    (hread : readIdentAux rest (c + 1) = (run, rem, c3)) :
    nextTokenF (fuel + 1) (ch :: rest) l c
      = some (lookupKeyword (ch :: run) c3 l, rem, l, c3) := by
  rw [nextTokenF, skipWs_not_ws (isLetter_not_ws hl), nextTokenStep,
    if_neg (ne_of_pred hl (by decide) : ch ≠ '='),
    if_neg (ne_of_pred hl (by decide) : ch ≠ '>'),
    if_neg (ne_of_pred hl (by decide) : ch ≠ '<'),
    if_neg (ne_of_pred hl (by decide) : ch ≠ '-'),
    if_neg (ne_of_pred hl (by decide) : ch ≠ '+'),
    if_neg (ne_of_pred hl (by decide) : ch ≠ '*'),
    if_neg (ne_of_pred hl (by decide) : ch ≠ '/'),
    if_neg (ne_of_pred hl (by decide) : ch ≠ ','),
    if_neg (ne_of_pred hl (by decide) : ch ≠ '{'),
    if_neg (ne_of_pred hl (by decide) : ch ≠ '}'),
    if_neg (ne_of_pred hl (by decide) : ch ≠ '['),
    if_neg (ne_of_pred hl (by decide) : ch ≠ ']'),
    if_neg (ne_of_pred hl (by decide) : ch ≠ '('),
    if_neg (ne_of_pred hl (by decide) : ch ≠ ')'),
    if_neg (ne_of_pred hl (by decide) : ch ≠ ';'),
    if_neg (ne_of_pred hl (by decide) : ch ≠ '"'),
    if_neg (ne_of_pred hl (by decide) : ch ≠ '.'),
    if_neg (ne_of_pred hl (by decide) : ch ≠ '~'),
    if_neg (ne_of_pred hl (by decide) : ch ≠ '!'),
    if_neg (ne_of_pred hl (by decide) : ch ≠ '&'),
    if_neg (ne_of_pred hl (by decide) : ch ≠ '|'),
    if_pos hl, hread]

/-- Dispatch of `next_token` on a digit-initial input: the number arm
runs, and its `Location` records the column one past the first digit. -/
theorem nextTokenF_digit {ch : Char} (hd : ch.isDigit = true) (hnl : isLetter ch = false)
    (fuel : Nat) (rest : List Char) (l c : Nat) {run rem : List Char} {c3 : Nat}
    (hread : readNumberAux rest (c + 1) = (run, rem, c3)) :
    nextTokenF (fuel + 1) (ch :: rest) l c
      = some (.NumberLiteral ⟨c + 1, l⟩ ⟨ch :: run⟩, rem, l, c3) := by
  rw [nextTokenF, skipWs_not_ws (isDigit_not_ws hd), nextTokenStep,
    if_neg (ne_of_pred hd (by decide) : ch ≠ '='),
    if_neg (ne_of_pred hd (by decide) : ch ≠ '>'),
    if_neg (ne_of_pred hd (by decide) : ch ≠ '<'),
    if_neg (ne_of_pred hd (by decide) : ch ≠ '-'),
    if_neg (ne_of_pred hd (by decide) : ch ≠ '+'),
    if_neg (ne_of_pred hd (by decide) : ch ≠ '*'),
    if_neg (ne_of_pred hd (by decide) : ch ≠ '/'),
    if_neg (ne_of_pred hd (by decide) : ch ≠ ','),
    if_neg (ne_of_pred hd (by decide) : ch ≠ '{'),
    if_neg (ne_of_pred hd (by decide) : ch ≠ '}'),
    if_neg (ne_of_pred hd (by decide) : ch ≠ '['),
    if_neg (ne_of_pred hd (by decide) : ch ≠ ']'),
    if_neg (ne_of_pred hd (by decide) : ch ≠ '('),
    if_neg (ne_of_pred hd (by decide) : ch ≠ ')'),
    if_neg (ne_of_pred hd (by decide) : ch ≠ ';'),
    if_neg (ne_of_pred hd (by decide) : ch ≠ '"'),
    if_neg (ne_of_pred hd (by decide) : ch ≠ '.'),
    if_neg (ne_of_pred hd (by decide) : ch ≠ '~'),
    if_neg (ne_of_pred hd (by decide) : ch ≠ '!'),
    if_neg (ne_of_pred hd (by decide) : ch ≠ '&'),
    if_neg (ne_of_pred hd (by decide) : ch ≠ '|'),
    if_neg (by intro hcc; rw [hcc] at hnl; exact Bool.noConfusion hnl),
    if_pos hd, hread]

/-- Dispatch of `next_token` on a quote: the string arm runs, recording the
start column. -/
theorem nextTokenF_string (fuel : Nat) (inner : List Char) (l c : Nat)
    {p rem : List Char} {c3 : Nat}
    (hread : readStringAux inner '\x00' (c + 1) = (p, rem, c3)) :
    nextTokenF (fuel + 1) ('"' :: inner) l c
      = some (.StringLiteral ⟨c + 1 - 1, l⟩ ⟨p⟩, rem, l, c3) := by
  rw [nextTokenF, skipWs_not_ws (by decide) inner l c, nextTokenStep,
    if_neg (by decide), if_neg (by decide), if_neg (by decide), if_neg (by decide),
    if_neg (by decide), if_neg (by decide), if_neg (by decide), if_neg (by decide),
    if_neg (by decide), if_neg (by decide), if_neg (by decide), if_neg (by decide),
    if_neg (by decide), if_neg (by decide), if_neg (by decide),
    if_pos rfl, hread]

/-- A terminated-or-clean string payload never ends in a backslash (w.r.t.
the `'\0'` default). -/
theorem getLastD_ne_backslash {pl : List Char}
    (hterm : (pl.getLast? == some '\\') = false) : pl.getLastD '\x00' ≠ '\\' := by
  cases hpl : pl.getLast? with
  | none =>
    rw [List.getLastD_eq_getLast?, hpl]
    decide
  | some x =>
    rw [List.getLastD_eq_getLast?, hpl, Option.getD_some]
    intro he
    rw [hpl, he] at hterm
    exact absurd hterm (by decide)

/-- Every token in the lexer's output satisfies the payload invariants. -/
theorem lexAuxF_wf : ∀ (fuel : Nat) (s : List Char) (l c : Nat) (t : Token),
    t ∈ lexAuxF fuel s l c → TokenWF t = true := by
  intro fuel
  induction fuel with
  | zero => intro s l c t ht; simp [lexAuxF] at ht
  | succ n ih =>
    intro s l c t ht
    simp only [lexAuxF] at ht
    rcases hnt : nextTokenF (n + 1) s l c with - | ⟨t0, s0, l0, c0⟩
    · rw [hnt] at ht; simp at ht
    · rw [hnt] at ht
      rcases List.mem_cons.mp ht with rfl | ht'
      · exact nextTokenF_wf (n + 1) s l c t s0 l0 c0 hnt
      · exact ih s0 l0 c0 t ht'

/-- Rendered lexemes are never empty (payload invariants make identifier
and number payloads non-empty). -/
theorem renderToken_length_pos (t : Token) (hwf : TokenWF t = true) :
    0 < (renderToken t).length := by
  cases t
  case Identifier loc p =>
    obtain ⟨pl⟩ := p
    cases pl with
    | nil => simp [TokenWF, identWF] at hwf
    | cons c0 tl => simp [renderToken]
  case NumberLiteral loc p =>
    obtain ⟨pl⟩ := p
    cases pl with
    | nil => simp [TokenWF, numWF] at hwf
    | cons c0 tl => simp [renderToken]
  all_goals simp [renderToken]

/-- The step lemma for the round-trip: re-lexing one rendered lexeme at a
token boundary (end of input or a separating space) yields one token of
the same kind and stops exactly at the boundary. -/
theorem renderToken_step (t : Token) (hwf : TokenWF t = true) (hterm : strTermOK t = true)
    (fuel : Nat) (rest : List Char) (l c : Nat)
    (hrest : rest = [] ∨ ∃ r, rest = ' ' :: r) :
    ∃ out : Token × List Char × Nat × Nat,
      nextTokenF (fuel + 1) (renderToken t ++ rest) l c = some out
      ∧ out.1.kind = t.kind ∧ out.2.1 = rest := by
  cases t
  case Identifier loc p =>
    obtain ⟨pl⟩ := p
    cases pl with
    | nil => simp [TokenWF, identWF] at hwf
    | cons c0 tl =>
      have hid : identWF (c0 :: tl) = true := hwf
      simp only [identWF, Bool.and_eq_true, Bool.not_eq_true'] at hid
      obtain ⟨⟨hc0, htl⟩, hkw⟩ := hid
      have hread := readIdentAux_append tl rest (c + 1)
        (fun x hx => List.all_eq_true.mp htl x hx) hrest
      refine ⟨(lookupKeyword (c0 :: tl) (c + 1 + tl.length) l, rest, l, c + 1 + tl.length),
        ?_, ?_, rfl⟩
      · have hstep := nextTokenF_letter hc0 fuel (tl ++ rest) l c hread
        rw [show renderToken (.Identifier loc ⟨c0 :: tl⟩) ++ rest = c0 :: (tl ++ rest) from rfl]
        exact hstep
      · rw [lookupKeyword_not_kw _ _ _ hkw]
        rfl
  case NumberLiteral loc p =>
    obtain ⟨pl⟩ := p
    cases pl with
    | nil => simp [TokenWF, numWF] at hwf
    | cons c0 tl =>
      have hnum : numWF (c0 :: tl) = true := hwf
      simp only [numWF, Bool.and_eq_true, Bool.not_eq_true'] at hnum
      obtain ⟨⟨hd0, hnl0⟩, htl⟩ := hnum
      have hread := readNumberAux_append tl rest (c + 1)
        (fun x hx => List.all_eq_true.mp htl x hx) hrest
      refine ⟨(.NumberLiteral ⟨c + 1, l⟩ ⟨c0 :: tl⟩, rest, l, c + 1 + tl.length),
        ?_, rfl, rfl⟩
      have hstep := nextTokenF_digit hd0 hnl0 fuel (tl ++ rest) l c hread
      rw [show renderToken (.NumberLiteral loc ⟨c0 :: tl⟩) ++ rest = c0 :: (tl ++ rest) from rfl]
      exact hstep
  case StringLiteral loc p =>
    obtain ⟨pl⟩ := p
    have hq : noUnescQuote '\x00' pl = true := hwf
    have hterm' : (pl.getLast? == some '\\') = false := by
      have hx : strTermOK (.StringLiteral loc ⟨pl⟩) = true := hterm
      simpa [strTermOK] using hx
    have hread := readStringAux_append pl rest '\x00' (c + 1) hq
      (getLastD_ne_backslash hterm')
    refine ⟨(.StringLiteral ⟨c + 1 - 1, l⟩ ⟨pl⟩, rest, l, c + 1 + pl.length + 1),
      ?_, rfl, rfl⟩
    have hstep := nextTokenF_string fuel (pl ++ '"' :: rest) l c hread
    rw [show renderToken (.StringLiteral loc ⟨pl⟩) ++ rest
      = '"' :: (pl ++ '"' :: rest) from by simp [renderToken]]
    exact hstep
  all_goals rcases hrest with rfl | ⟨r, rfl⟩ <;> exact ⟨_, rfl, rfl, rfl⟩

/-- Re-lexing the space-separated rendering of a well-formed token list
reproduces its kind sequence. -/
theorem lexAuxF_render : ∀ (ts : List Token),
    (∀ t ∈ ts, TokenWF t = true) → (∀ t ∈ ts, strTermOK t = true) →
    ∀ (fuel l c : Nat), (renderTokens ts).length < fuel →
    (lexAuxF fuel (renderTokens ts) l c).map Token.kind = ts.map Token.kind := by
  intro ts
  induction ts with
  | nil =>
    intro _ _ fuel l c _
    simp [renderTokens, lexAuxF_nil]
  | cons t ts ih =>
    intro hwf hterm fuel l c hfuel
    have hwt : TokenWF t = true := hwf t (List.mem_cons_self t ts)
    have htt : strTermOK t = true := hterm t (List.mem_cons_self t ts)
    cases ts with
    | nil =>
      cases fuel with
      | zero => exact absurd hfuel (by omega)
      | succ n =>
        obtain ⟨⟨t1, s1, l1, c1⟩, hstep, hkind, hrest⟩ :=
          renderToken_step t hwt htt n [] l c (Or.inl rfl)
        rw [List.append_nil] at hstep
        simp only at hrest
        subst hrest
        show (lexAuxF (n + 1) (renderTokens [t]) l c).map Token.kind = _
        rw [show renderTokens [t] = renderToken t from rfl, lexAuxF, hstep]
        show (t1 :: lexAuxF n [] l1 c1).map Token.kind = [t].map Token.kind
        simp [lexAuxF_nil, hkind]
    | cons t2 ts2 =>
      cases fuel with
      | zero => exact absurd hfuel (by omega)
      | succ n =>
        obtain ⟨⟨t1, s1, l1, c1⟩, hstep, hkind, hrest⟩ :=
          renderToken_step t hwt htt n (' ' :: renderTokens (t2 :: ts2)) l c
            (Or.inr ⟨_, rfl⟩)
        simp only at hrest
        subst hrest
        have hpos := renderToken_length_pos t hwt
        have hfuel' : (renderTokens (t2 :: ts2)).length < n := by
          have hlen : (renderTokens (t :: t2 :: ts2)).length
              = (renderToken t).length + (1 + (renderTokens (t2 :: ts2)).length) := by
            show (renderToken t ++ ' ' :: renderTokens (t2 :: ts2)).length = _
            simp [List.length_append]
            omega
          rw [hlen] at hfuel
          omega
        have ihR := ih (fun x hx => hwf x (List.mem_cons_of_mem t hx))
          (fun x hx => hterm x (List.mem_cons_of_mem t hx)) n l1 (c1 + 1) hfuel'
        show (lexAuxF (n + 1) (renderTokens (t :: t2 :: ts2)) l c).map Token.kind = _
        rw [show renderTokens (t :: t2 :: ts2)
          = renderToken t ++ ' ' :: renderTokens (t2 :: ts2) from rfl, lexAuxF, hstep]
        show (t1 :: lexAuxF n (' ' :: renderTokens (t2 :: ts2)) l1 c1).map Token.kind
          = (t :: t2 :: ts2).map Token.kind
        rw [lexAuxF_space]
        simp only [List.map_cons]
        rw [hkind, ihR]
        simp [List.map_cons]

/-- C9 counterexample: for the input `"hi"` the lexer produces one
`StringLiteral` token with payload `hi`; re-lexing the concatenation of the
token payloads (`hi` — the quotes are not part of the payload) produces one
`Identifier` token, so the token-kind sequence is *not* reproduced. -/
theorem spec_c9_cex :
    lex "\"hi\"" = [.StringLiteral ⟨1, 1⟩ "hi"]
    ∧ payloadConcat (lex "\"hi\"") = "hi".data
    ∧ (lex ⟨payloadConcat (lex "\"hi\"")⟩).map Token.kind = [TokenKind.Identifier]
    ∧ (lex "\"hi\"").map Token.kind = [TokenKind.StringLiteral]
    ∧ (lex ⟨payloadConcat (lex "\"hi\"")⟩).map Token.kind
      ≠ (lex "\"hi\"").map Token.kind := by
  exact ⟨by decide, by decide, by decide, by decide, by decide⟩

/-- C9 amended: re-lexing the *whitespace-separated* concatenation of the
tokens' *lexemes* (payloads for identifiers and numbers, the quoted payload
for strings, the fixed spelling for keywords, punctuation and operators)
reproduces the original token-kind sequence — provided no string token's
payload ends in a backslash (possible only for a string truncated by end of
input in mid-escape; a terminated string never ends its payload with a
backslash). -/
theorem spec_c9_amended (s : String)
    (hterm : ∀ t ∈ lex s, strTermOK t = true) :
    (lex ⟨renderTokens (lex s)⟩).map Token.kind = (lex s).map Token.kind := by
  have hwf : ∀ t ∈ lex s, TokenWF t = true :=
    fun t ht => lexAuxF_wf (s.data.length + 1) s.data 1 1 t ht
  exact lexAuxF_render (lex s) hwf hterm ((renderTokens (lex s)).length + 1) 1 1
    (Nat.lt_succ_self _)

/-- Witness for C9: the amended theorem applied at a concrete program
fragment exercising keywords, identifiers, operators, numbers, braces and
strings. -/
theorem spec_c9_witness :
    (∀ t ∈ lex "if x1 == 42 \x7b \"a b\" \x7d", strTermOK t = true)
    ∧ (lex ⟨renderTokens (lex "if x1 == 42 \x7b \"a b\" \x7d")⟩).map Token.kind
      = (lex "if x1 == 42 \x7b \"a b\" \x7d").map Token.kind :=
  ⟨by decide, spec_c9_amended _ (by decide)⟩

end LittleLanguage
